import Mathlib

/-!
Verification development for the `rsyncr` change-classification and
move-inference engine (`src/rsyncr/rsyncr.py`).

The embedding below translates, line by line, the pure core of the script:

* the rsync itemization tables `State`, `Entry` and the change-marker set
  (rsyncr.py lines 54-56);
* the utility reducers `xany` / `xall` (lines 61-62);
* `cygwinify` (non-Windows branch, line 76);
* `parseLine` (lines 79-102), parameterized by the ambient `cwdParent`
  root and by the `os.path.abspath` normalization function of the
  environment;
* the trivial fallback string distance (line 259);
* the classification block of the simulation run (lines 316-337):
  `newdirs`, the absorption filter, `potentialMoves`, `removes`,
  `modified`, `added` and `potentialMoveDirs`;
* the execution gate (lines 368-370).

Python dicts are modelled as association lists with Python's dict
semantics (first-insertion key order, last-assigned value); Python string
operations are modelled character-list-wise (Python indexes strings by
code point).
-/

/-- One parsed rsync itemization line: the `FileState` namedtuple of
rsyncr.py line 57.  `state` and `type` hold the result of `dict.get`,
hence `Option` (`none` models Python `None` for unrecognized codes). -/
structure FileState where
  state : Option String
  type : Option String
  change : Bool
  path : String
  newdir : Bool
deriving DecidableEq, Repr

/-- The `State` marker table of rsyncr.py line 54, as the lookup
`State.get` (returns `none` on an unrecognized first character). -/
def StateTab (c : Char) : Option String :=
  if c = '.' then some "unchanged"
  else if c = '>' then some "store"
  else if c = 'c' then some "changed"
  else if c = '<' then some "restored"
  else if c = '*' then some "message"
  else none

/-- The `Entry` type table of rsyncr.py line 55, as the lookup
`Entry.get` (returns `none` on an unrecognized type character). -/
def EntryTab (c : Char) : Option String :=
  if c = 'f' then some "file"
  else if c = 'd' then some "dir"
  else if c = 'u' then some "unknown"
  else none

/-- The attribute characters counted as changes in `parseLine`
(rsyncr.py line 92: `_ in "cstpoguax"`). -/
def ChangeChars : List Char := "cstpoguax".toList

/-- `xany` of rsyncr.py line 61: a `reduce`-based any. -/
def xany (pred : α → Bool) (lizt : List α) : Bool :=
  lizt.foldl (fun a b => a || pred b) false

/-- `xall` of rsyncr.py line 62: a `reduce`-based all. -/
def xall (pred : α → Bool) (lizt : List α) : Bool :=
  lizt.foldl (fun a b => a && pred b) true

/-- Python `str.startswith`, character-list-wise. -/
def listIsPre : List Char → List Char → Bool
  | [], _ => true
  | _ :: _, [] => false
  | a :: as, b :: bs => a == b && listIsPre as bs

/-- Python `s.startswith(pre)`. -/
def pyStartsWith (s pre : String) : Bool := listIsPre pre.toList s.toList

/-- `cygwinify` of rsyncr.py line 76 (non-Windows branch):
`path[:-1] if path[-1] == "/" else path`.  In the script it is only ever
applied to `os.path.abspath` output, which is non-empty; on `""` we
return `""`. -/
def cygwinify (path : String) : String :=
  if path.toList.getLastD ' ' = '/' then String.mk path.toList.dropLast else path

/-- Python `os.path.basename`: the substring after the last `/`. -/
def basename (p : String) : String :=
  String.mk ((p.toList.reverse.takeWhile (fun c => c ≠ '/')).reverse)

/-- `atts = line.split(" ")[0]` of rsyncr.py line 86: the characters
before the first space. -/
def lineAtts (line : String) : List Char := line.toList.takeWhile (fun c => c ≠ ' ')

/-- `path = line[line.index(" ") + 1:]` of rsyncr.py line 87: the
characters after the first space. -/
def afterFirstSpace (line : String) : String :=
  String.mk ((line.toList.dropWhile (fun c => c ≠ ' ')).drop 1)

/-- The `while path.startswith(" "): path = path[1:]` loop of
rsyncr.py line 96. -/
def stripLeadingSpaces (s : String) : String :=
  String.mk (s.toList.dropWhile (fun c => c = ' '))

/-- The normalized absolute path computed by rsyncr.py line 97:
`cygwinify(os.path.abspath(path))`, with `os.path.abspath` supplied by
the environment as the parameter `abspath`. -/
def normalizedPath (abspath : String → String) (line : String) : String :=
  cygwinify (abspath (stripLeadingSpaces (afterFirstSpace line)))

/-- The tail of `parseLine` (rsyncr.py lines 96-102) shared by the
message and the non-message branch: path normalization, `newdir`
detection, the `"deleting"` message remap, the root-prefix assertion and
the construction of the `FileState`. -/
def finishLine (cwdParent : String) (abspath : String → String) (line : String)
    (entry : Option String) (change : Bool) : Except String FileState :=
  let atts := lineAtts line
  let state0 := StateTab (atts.headD ' ')
  let path := normalizedPath abspath line
  let newdir := (atts.take 2 == ['c', 'd']) && xall (fun c => c == '+') (atts.drop 2)
  let state := if state0 == some "message" && atts.drop 1 == "deleting".toList
               then some "deleted" else state0
  if pyStartsWith path (cwdParent ++ "/") || path == cwdParent then
    .ok ⟨state, entry, change, String.mk (path.toList.drop cwdParent.toList.length), newdir⟩
  else
    .error ("Wrong path prefix: " ++ path ++ " vs " ++ cwdParent)

/-- `parseLine` of rsyncr.py lines 79-102.  Python exceptions are
modelled as `.error` values: `line.index(" ")` raises `ValueError` when
the line has no space, `atts[0]` / `atts[1]` raise `IndexError` when the
attribute code is too short, and the path-root assertion raises the
`"Wrong path prefix"` exception. -/
def parseLine (cwdParent : String) (abspath : String → String) (line : String) :
    Except String FileState :=
  let atts := lineAtts line
  if ' ' ∉ line.toList then .error "ValueError: substring not found"
  else if atts.length = 0 then .error "IndexError: string index out of range"
  else if StateTab (atts.headD ' ') = some "message" then
    finishLine cwdParent abspath line (EntryTab 'u') true
  else if atts.length < 2 then .error "IndexError: string index out of range"
  else finishLine cwdParent abspath line (EntryTab (atts.getD 1 ' '))
    (xany (fun c => c ∈ ChangeChars) (atts.drop 2))

/-- The fallback string distance of rsyncr.py line 259:
`0 if a == b else 1`, used when no edit-distance library imports. -/
def distance (a b : String) : Int := if a = b then 0 else 1

/-- `MAX_MOVE_DIRS` of rsyncr.py line 46. -/
def MAX_MOVE_DIRS : Nat := 2

/-- `MAX_EDIT_DISTANCE` of rsyncr.py line 47. -/
def MAX_EDIT_DISTANCE : Int := 5

/-- One Python dict assignment `d[k] = v`: update in place when the key
is present, append otherwise. -/
def dictSet (d : List (String × α)) (k : String) (v : α) : List (String × α) :=
  if (d.map Prod.fst).contains k then
    d.map (fun q => if q.1 = k then (k, v) else q)
  else d ++ [(k, v)]

/-- A Python dict comprehension over a list of key/value pairs:
first-insertion key order, last-assigned value. -/
def pyDict (l : List (String × α)) : List (String × α) :=
  l.foldl (fun d q => dictSet d q.1 q.2) []

/-- Python code-point comparison of strings (`a <= b`),
character-list-wise. -/
def charListLe : List Char → List Char → Bool
  | [], _ => true
  | _ :: _, [] => false
  | a :: as, b :: bs =>
    if a.toNat < b.toNat then true
    else if b.toNat < a.toNat then false
    else charListLe as bs

/-- Python tuple comparison `(d1, p1) <= (d2, p2)` on
(distance, path) pairs, as used by `sorted` in rsyncr.py line 336. -/
def pairLeB (a b : Int × String) : Bool :=
  decide (a.1 < b.1) || (decide (a.1 = b.1) && charListLe a.2.toList b.2.toList)

/-- `pairLeB` as a relation, for use with `List.insertionSort`. -/
def pairLeR (a b : Int × String) : Prop := pairLeB a b = true

instance : DecidableRel pairLeR := fun a b => instDecidableEqBool (pairLeB a b) true

/-- Python `sorted` on (distance, path) pairs. -/
def sortPairs (l : List (Int × String)) : List (Int × String) :=
  List.insertionSort pairLeR l

/-- `entries = [entry for entry in entries if entry.path != ""]`
(rsyncr.py line 317): drop root placeholders. -/
def stage1 (entries : List FileState) : List FileState :=
  entries.filter (fun e => e.path != "")

/-- The member list associated with a new directory path `k` in
`newdirs` (rsyncr.py line 320):
`[e.path for e in entries if e.path.startswith(entry.path) and e.type == "file"]`. -/
def ndVal (entries : List FileState) (k : String) : List String :=
  ((stage1 entries).filter (fun e => pyStartsWith e.path k && e.type == some "file")).map
    (fun e => e.path)

/-- `newdirs` of rsyncr.py line 320: dict from each new directory's path
to the file paths under it (by raw string-prefix comparison). -/
def newdirsOf (entries : List FileState) : List (String × List String) :=
  pyDict (((stage1 entries).filter (fun e => e.newdir)).map
    (fun entry => (entry.path, ndVal entries entry.path)))

/-- A path is absorbed into `newdirs` when it is a key or appears in one
of the member lists (the exclusion test of rsyncr.py line 321). -/
def absorbedIn (nd : List (String × List String)) (p : String) : Bool :=
  (nd.map Prod.fst).contains p || nd.any (fun kv => kv.2.contains p)

/-- `entries = [entry for entry in entries if entry.path not in newdirs
and not xany(lambda files: entry.path in files, newdirs.values())]`
(rsyncr.py line 321). -/
def stage2 (entries : List FileState) : List FileState :=
  let nd := newdirsOf entries
  (stage1 entries).filter (fun entry =>
    !((nd.map Prod.fst).contains entry.path) &&
    !(xany (fun files => files.contains entry.path) (nd.map Prod.snd)))

/-- `addNames = [f for f in entries if f.state == "store"]`
(rsyncr.py line 326). -/
def addNamesOf (entries : List FileState) : List FileState :=
  (stage2 entries).filter (fun f => f.state == some "store")

/-- `def new(entry): return [e.path for e in addNames if e != entry and
os.path.basename(entry.path) == os.path.basename(e.path)]`
(rsyncr.py line 325). -/
def newOf (entries : List FileState) (entry : FileState) : List String :=
  ((addNamesOf entries).filter (fun e =>
    e != entry && basename entry.path == basename e.path)).map (fun e => e.path)

/-- The value `new(old)` depends only on `old.path` for the deleted
records fed to the `potentialMoves` comprehension; this is that
function of the key. -/
def candVal (entries : List FileState) (k : String) : List String :=
  ((addNamesOf entries).filter (fun e => basename k == basename e.path)).map
    (fun e => e.path)

/-- `potentialMoves = {old.path: new(old) for old in entries if
old.type == "unknown" and old.state == "deleted"}` (rsyncr.py line 327). -/
def potentialMoves0Of (entries : List FileState) : List (String × List String) :=
  pyDict (((stage2 entries).filter (fun o =>
    o.type == some "unknown" && o.state == some "deleted")).map
      (fun old => (old.path, newOf entries old)))

/-- `removes = [rem for rem, froms in potentialMoves.items() if froms == []]`
(rsyncr.py line 328). -/
def removesOf (entries : List FileState) : List String :=
  ((potentialMoves0Of entries).filter (fun kv => kv.2 == [])).map Prod.fst

/-- `potentialMoves = {k: v for k, v in potentialMoves.items() if k not
in removes}` (rsyncr.py line 329); over a dict the comprehension is an
order-preserving filter. -/
def potentialMovesOf (entries : List FileState) : List (String × List String) :=
  (potentialMoves0Of entries).filter (fun kv => !(removesOf entries).contains kv.1)

/-- The first `modified` list of rsyncr.py line 330. -/
def modified0Of (entries : List FileState) : List String :=
  ((stage2 entries).filter (fun e =>
    e.type == some "file" && e.change &&
    !(removesOf entries).contains e.path &&
    !((potentialMovesOf entries).map Prod.fst).contains e.path)).map (fun e => e.path)

/-- `added` of rsyncr.py line 331. -/
def addedOf (entries : List FileState) : List String :=
  ((stage2 entries).filter (fun e =>
    e.type == some "file" &&
    (e.state == some "store" || e.state == some "changed") &&
    e.path != "" &&
    !(xany (fun a => a.contains e.path) ((potentialMovesOf entries).map Prod.snd)))).map
      (fun e => e.path)

/-- `modified = [name for name in modified if name not in added]`
(rsyncr.py line 332). -/
def modifiedOf (entries : List FileState) : List String :=
  (modified0Of entries).filter (fun name => !(addedOf entries).contains name)

/-- The candidate list computed for one deleted name in rsyncr.py
line 336: score every `newdirs` key by base-name distance, sort by
(distance, path), keep scores strictly below `MAX_EDIT_DISTANCE`, cap at
`MAX_MOVE_DIRS`. -/
def moveDirCandidates (distance : String → String → Int) (ndKeys : List String)
    (delname : String) : List (Int × String) :=
  ((sortPairs (ndKeys.map (fun addname =>
    (distance (basename addname) (basename delname), addname)))).filter
      (fun p => decide (p.1 < MAX_EDIT_DISTANCE))).take MAX_MOVE_DIRS

/-- The `", ".join(f"{_[1]}:{_[0]}" ...)` rendering of rsyncr.py
line 336. -/
def renderCandidates (cands : List (Int × String)) : String :=
  String.intercalate ", " (cands.map (fun p => p.2 ++ ":" ++ toString p.1))

/-- The string value stored in `potentialMoveDirs` for one deleted name. -/
def pmdVal (distance : String → String → Int) (entries : List FileState)
    (k : String) : String :=
  renderCandidates (moveDirCandidates distance ((newdirsOf entries).map Prod.fst) k)

/-- `potentialMoveDirs` of rsyncr.py lines 336-337: the dict over
`list(potentialMoves.keys()) + removes`, with empty renderings dropped
(the final comprehension over a dict is an order-preserving filter). -/
def potentialMoveDirsOf (distance : String → String → Int)
    (entries : List FileState) : List (String × String) :=
  (pyDict ((((potentialMovesOf entries).map Prod.fst) ++ removesOf entries).map
    (fun delname => (delname, pmdVal distance entries delname)))).filter
      (fun kv => kv.2 != "")

/-- The classification computed by the simulation run of rsyncr.py
lines 316-337 (the spec's `ClassificationResult`).  `computeMoveDirs`
is false in add-only mode or under `--skip-move` / `--skip-moves`
(rsyncr.py line 334), in which case `potentialMoveDirs` stays `{}`. -/
structure ClassificationResult where
  newdirs : List (String × List String)
  potentialMoves : List (String × List String)
  removes : List String
  modified : List String
  added : List String
  potentialMoveDirs : List (String × String)
deriving DecidableEq, Repr

/-- The classification engine: rsyncr.py lines 317-337 assembled. -/
def classify (distance : String → String → Int) (computeMoveDirs : Bool)
    (entries : List FileState) : ClassificationResult :=
  { newdirs := newdirsOf entries
    potentialMoves := potentialMovesOf entries
    removes := removesOf entries
    modified := modifiedOf entries
    added := addedOf entries
    potentialMoveDirs :=
      if computeMoveDirs then potentialMoveDirsOf distance entries else [] }

/-- The execution gate of rsyncr.py lines 368-370: the real rsync run is
reached unless `len(removes) + len(potentialMoves) + len(potentialMoveDirs) > 0`
and `--force` was not given. -/
def mayProceed (r : ClassificationResult) (force : Bool) : Bool :=
  !(decide (0 < r.removes.length + r.potentialMoves.length + r.potentialMoveDirs.length)
    && !force)

deriving instance DecidableEq for Except

/-! ### Generic helper lemmas -/

theorem foldl_or_eq (p : α → Bool) (l : List α) (acc : Bool) :
    l.foldl (fun a b => a || p b) acc = (acc || l.any p) := by
  induction l generalizing acc with
  | nil => simp
  | cons x xs ih => rw [List.foldl_cons, ih, List.any_cons, Bool.or_assoc]

theorem xany_eq_any (p : α → Bool) (l : List α) : xany p l = l.any p := by
  unfold xany
  rw [foldl_or_eq, Bool.false_or]

theorem listIsPre_iff (p l : List Char) : listIsPre p l = true ↔ ∃ t, l = p ++ t := by
  induction p generalizing l with
  | nil => simp [listIsPre]
  | cons a as ih =>
    cases l with
    | nil => simp [listIsPre]
    | cons b bs =>
      simp only [listIsPre, Bool.and_eq_true, beq_iff_eq, ih, List.cons_append,
        List.cons.injEq]
      constructor
      · rintro ⟨rfl, t, rfl⟩; exact ⟨t, rfl, rfl⟩
      · rintro ⟨t, rfl, rfl⟩; exact ⟨rfl, t, rfl⟩

theorem mem_assoc_of_inv {α : Type} (val : String → α) (d : List (String × α))
    (hd : ∀ q ∈ d, q.2 = val q.1) (k : String) (v : α) :
    (k, v) ∈ d ↔ k ∈ d.map Prod.fst ∧ v = val k := by
  constructor
  · intro h
    exact ⟨List.mem_map.mpr ⟨(k, v), h, rfl⟩, hd (k, v) h⟩
  · rintro ⟨hk, rfl⟩
    obtain ⟨q, hq, hq1⟩ := List.mem_map.mp hk
    have : q = (k, val k) := by
      obtain ⟨q1, q2⟩ := q
      simp only at hq1
      subst hq1
      simpa [Prod.ext_iff] using hd _ hq
    rwa [this] at hq

theorem dictSet_fst_mem {α : Type} (d : List (String × α)) (a : String) (v : α) (k : String) :
    k ∈ (dictSet d a v).map Prod.fst ↔ k ∈ d.map Prod.fst ∨ k = a := by
  unfold dictSet
  split
  · rename_i h
    have hmap : (d.map fun q => if q.1 = a then (a, v) else q).map Prod.fst = d.map Prod.fst := by
      rw [List.map_map]
      apply List.map_congr_left
      intro q _
      by_cases hq : q.1 = a <;> simp [hq]
    rw [hmap]
    have ha : a ∈ d.map Prod.fst := by simpa using h
    constructor
    · exact Or.inl
    · rintro (h1 | rfl)
      · exact h1
      · exact ha
  · simp

theorem dictSet_inv {α : Type} (val : String → α) (d : List (String × α)) (a : String) (v : α)
    (hd : ∀ q ∈ d, q.2 = val q.1) (hv : v = val a) :
    ∀ q ∈ dictSet d a v, q.2 = val q.1 := by
  unfold dictSet
  split
  · intro q hq
    obtain ⟨q', hq', hq'q⟩ := List.mem_map.mp hq
    by_cases h : q'.1 = a
    · simp only [h, if_true] at hq'q
      subst hq'q; simpa using hv
    · simp only [h, if_false] at hq'q
      subst hq'q; exact hd _ hq'
  · intro q hq
    rcases List.mem_append.mp hq with h | h
    · exact hd _ h
    · simp only [List.mem_singleton] at h
      subst h; simpa using hv

theorem foldl_dictSet_fst_mem {α : Type} (l : List (String × α)) (d : List (String × α))
    (k : String) :
    (k ∈ (l.foldl (fun d q => dictSet d q.1 q.2) d).map Prod.fst ↔
      k ∈ d.map Prod.fst ∨ k ∈ l.map Prod.fst) := by
  induction l generalizing d with
  | nil => simp
  | cons q l ih =>
    simp only [List.foldl_cons, ih, dictSet_fst_mem, List.map_cons, List.mem_cons]
    tauto

theorem pyDict_fst_mem {α : Type} (l : List (String × α)) (k : String) :
    k ∈ (pyDict l).map Prod.fst ↔ k ∈ l.map Prod.fst := by
  simpa using foldl_dictSet_fst_mem l [] k

theorem foldl_dictSet_mem_keyfn {α : Type} (val : String → α) (l : List (String × α))
    (hl : ∀ q ∈ l, q.2 = val q.1) (d : List (String × α)) (hd : ∀ q ∈ d, q.2 = val q.1)
    (k : String) (v : α) :
    ((k, v) ∈ l.foldl (fun d q => dictSet d q.1 q.2) d ↔
      (k ∈ d.map Prod.fst ∨ k ∈ l.map Prod.fst) ∧ v = val k) := by
  induction l generalizing d with
  | nil =>
    simpa using mem_assoc_of_inv val d hd k v
  | cons q l ih =>
    have hq : q.2 = val q.1 := hl q (List.mem_cons_self q l)
    have hl' : ∀ q' ∈ l, q'.2 = val q'.1 := fun q' h => hl q' (List.mem_cons_of_mem q h)
    have hd' : ∀ q' ∈ dictSet d q.1 q.2, q'.2 = val q'.1 := dictSet_inv val d q.1 q.2 hd hq
    simp only [List.foldl_cons, ih hl' _ hd', dictSet_fst_mem, List.map_cons, List.mem_cons]
    tauto

theorem pyDict_mem_keyfn {α : Type} (val : String → α) (l : List (String × α))
    (hl : ∀ q ∈ l, q.2 = val q.1) (k : String) (v : α) :
    ((k, v) ∈ pyDict l ↔ k ∈ l.map Prod.fst ∧ v = val k) := by
  simpa using foldl_dictSet_mem_keyfn val l hl [] (by simp) k v

/-! ### Order lemmas for the (distance, path) sort -/

theorem charListLe_total : ∀ as bs : List Char,
    charListLe as bs = true ∨ charListLe bs as = true := by
  intro as
  induction as with
  | nil => intro bs; left; simp [charListLe]
  | cons a as ih =>
    intro bs
    cases bs with
    | nil => right; simp [charListLe]
    | cons b bs' =>
      simp only [charListLe]
      rcases Nat.lt_trichotomy a.toNat b.toNat with h | h | h
      · left; simp [h]
      · have h1 : ¬ a.toNat < b.toNat := by omega
        have h2 : ¬ b.toNat < a.toNat := by omega
        simpa [h1, h2] using ih bs'
      · right; simp [h]

theorem charListLe_trans : ∀ as bs cs : List Char,
    charListLe as bs = true → charListLe bs cs = true → charListLe as cs = true := by
  intro as
  induction as with
  | nil => intro bs cs _ _; simp [charListLe]
  | cons a as ih =>
    intro bs cs h1 h2
    cases bs with
    | nil => simp [charListLe] at h1
    | cons b bs' =>
      cases cs with
      | nil => simp [charListLe] at h2
      | cons c cs' =>
        simp only [charListLe] at h1 h2 ⊢
        split_ifs at h1 h2 ⊢ <;> try rfl
        all_goals (try omega)
        all_goals (try exact ih bs' cs' h1 h2)

instance : IsTotal (Int × String) pairLeR := by
  constructor
  intro a b
  unfold pairLeR pairLeB
  simp only [Bool.or_eq_true, Bool.and_eq_true, decide_eq_true_eq]
  rcases lt_trichotomy a.1 b.1 with h | h | h
  · exact Or.inl (Or.inl h)
  · rcases charListLe_total a.2.toList b.2.toList with hc | hc
    · exact Or.inl (Or.inr ⟨h, hc⟩)
    · exact Or.inr (Or.inr ⟨h.symm, hc⟩)
  · exact Or.inr (Or.inl h)

instance : IsTrans (Int × String) pairLeR := by
  constructor
  intro a b c hab hbc
  unfold pairLeR pairLeB at *
  simp only [Bool.or_eq_true, Bool.and_eq_true, decide_eq_true_eq] at *
  rcases hab with h1 | ⟨h1, hc1⟩ <;> rcases hbc with h2 | ⟨h2, hc2⟩
  · exact Or.inl (h1.trans h2)
  · exact Or.inl (h2 ▸ h1)
  · exact Or.inl (h1 ▸ h2)
  · exact Or.inr ⟨h1.trans h2, charListLe_trans _ _ _ hc1 hc2⟩

theorem sortPairs_pairwise (l : List (Int × String)) : (sortPairs l).Pairwise pairLeR :=
  List.sorted_insertionSort pairLeR l

theorem mem_sortPairs (l : List (Int × String)) (x : Int × String) :
    x ∈ sortPairs l ↔ x ∈ l :=
  (List.perm_insertionSort pairLeR l).mem_iff

/-! ### Lemmas about the directory-move candidate lists -/

theorem moveDirCandidates_sublist (distance : String → String → Int) (nd : List String)
    (k : String) :
    (moveDirCandidates distance nd k).Sublist
      (sortPairs (nd.map (fun addname => (distance (basename addname) (basename k), addname)))) := by
  unfold moveDirCandidates
  exact (List.take_sublist _ _).trans (List.filter_sublist _)

theorem moveDirCandidates_length (distance : String → String → Int) (nd : List String)
    (k : String) : (moveDirCandidates distance nd k).length ≤ MAX_MOVE_DIRS := by
  unfold moveDirCandidates
  simp [List.length_take]

theorem moveDirCandidates_lt (distance : String → String → Int) (nd : List String)
    (k : String) (c : Int × String) (hc : c ∈ moveDirCandidates distance nd k) :
    c.1 < MAX_EDIT_DISTANCE := by
  unfold moveDirCandidates at hc
  have := (List.take_sublist _ _).subset hc
  simpa using (List.mem_filter.mp this).2

theorem moveDirCandidates_pairwise (distance : String → String → Int) (nd : List String)
    (k : String) : (moveDirCandidates distance nd k).Pairwise pairLeR :=
  List.Pairwise.sublist (moveDirCandidates_sublist distance nd k) (sortPairs_pairwise _)

theorem moveDirCandidates_fst_le (distance : String → String → Int) (nd : List String)
    (k : String) :
    (moveDirCandidates distance nd k).Pairwise (fun a b => a.1 ≤ b.1) := by
  refine (moveDirCandidates_pairwise distance nd k).imp ?_
  intro a b h
  unfold pairLeR pairLeB at h
  simp only [Bool.or_eq_true, Bool.and_eq_true, decide_eq_true_eq] at h
  rcases h with h | ⟨h, _⟩
  · exact h.le
  · exact h.le

theorem moveDirCandidates_snd_mem (distance : String → String → Int) (nd : List String)
    (k : String) (c : Int × String) (hc : c ∈ moveDirCandidates distance nd k) :
    c.2 ∈ nd := by
  unfold moveDirCandidates at hc
  have h1 := (List.filter_sublist _).subset ((List.take_sublist _ _).subset hc)
  rw [mem_sortPairs] at h1
  obtain ⟨addname, ha, hae⟩ := List.mem_map.mp h1
  rw [← hae]
  exact ha

theorem renderCandidates_nil : renderCandidates [] = "" := rfl

/-! ### Membership characterizations of the classification stages -/

theorem contains_eq_false_iff (l : List String) (a : String) :
    l.contains a = false ↔ a ∉ l := by
  simp

theorem any_map_snd (nd : List (String × List String)) (p : String) :
    ((nd.map Prod.snd).any fun files => files.contains p) =
      nd.any (fun kv => kv.2.contains p) := by
  induction nd with
  | nil => rfl
  | cons q l ih => rw [List.map_cons, List.any_cons, List.any_cons, ih]

theorem mem_stage1 (entries : List FileState) (e : FileState) :
    e ∈ stage1 entries ↔ e ∈ entries ∧ e.path ≠ "" := by
  simp [stage1, List.mem_filter]

theorem mem_stage2 (entries : List FileState) (e : FileState) :
    e ∈ stage2 entries ↔
      e ∈ entries ∧ e.path ≠ "" ∧ absorbedIn (newdirsOf entries) e.path = false := by
  unfold stage2 absorbedIn
  rw [List.mem_filter, mem_stage1]
  simp only [xany_eq_any, any_map_snd, Bool.and_eq_true, Bool.not_eq_true',
    Bool.or_eq_false_iff]
  tauto

theorem mem_newdirs (entries : List FileState) (kv : String × List String) :
    kv ∈ newdirsOf entries ↔
      (∃ r, r ∈ stage1 entries ∧ r.newdir = true ∧ r.path = kv.1) ∧
        kv.2 = ndVal entries kv.1 := by
  obtain ⟨k, v⟩ := kv
  unfold newdirsOf
  rw [pyDict_mem_keyfn (ndVal entries)]
  · simp only [List.map_map, List.mem_map, Function.comp, List.mem_filter]
    constructor
    · rintro ⟨⟨r, ⟨hr, hnd⟩, rfl⟩, rfl⟩
      exact ⟨⟨r, hr, hnd, rfl⟩, rfl⟩
    · rintro ⟨⟨r, hr, hnd, rfl⟩, rfl⟩
      exact ⟨⟨r, ⟨hr, hnd⟩, rfl⟩, rfl⟩
  · rintro q hq
    obtain ⟨r, _, rfl⟩ := List.mem_map.mp hq
    rfl

theorem keys_newdirs (entries : List FileState) (k : String) :
    k ∈ (newdirsOf entries).map Prod.fst ↔
      ∃ r, r ∈ stage1 entries ∧ r.newdir = true ∧ r.path = k := by
  unfold newdirsOf
  rw [pyDict_fst_mem]
  simp [List.map_map, Function.comp, List.mem_map, List.mem_filter, and_assoc]

theorem mem_addNames (entries : List FileState) (s : FileState) :
    s ∈ addNamesOf entries ↔ s ∈ stage2 entries ∧ s.state = some "store" := by
  simp [addNamesOf, List.mem_filter]

theorem newOf_eq_candVal (entries : List FileState) (old : FileState)
    (h : old.state = some "deleted") :
    newOf entries old = candVal entries old.path := by
  unfold newOf candVal
  congr 1
  apply List.filter_congr
  intro e he
  have hs : e.state = some "store" := ((mem_addNames entries e).mp he).2
  have hne : e ≠ old := by
    intro hh
    rw [hh, h] at hs
    simp at hs
  simp [bne_iff_ne, hne]

theorem mem_pm0 (entries : List FileState) (kv : String × List String) :
    kv ∈ potentialMoves0Of entries ↔
      (∃ old, old ∈ stage2 entries ∧ old.type = some "unknown" ∧
        old.state = some "deleted" ∧ old.path = kv.1) ∧
      kv.2 = candVal entries kv.1 := by
  obtain ⟨k, v⟩ := kv
  unfold potentialMoves0Of
  rw [pyDict_mem_keyfn (candVal entries)]
  · simp only [List.map_map, List.mem_map, Function.comp, List.mem_filter,
      Bool.and_eq_true, beq_iff_eq]
    constructor
    · rintro ⟨⟨old, ⟨hm, ht, hs⟩, rfl⟩, rfl⟩
      exact ⟨⟨old, hm, ht, hs, rfl⟩, rfl⟩
    · rintro ⟨⟨old, hm, ht, hs, rfl⟩, rfl⟩
      exact ⟨⟨old, ⟨hm, ht, hs⟩, rfl⟩, rfl⟩
  · rintro q hq
    obtain ⟨old, hm, rfl⟩ := List.mem_map.mp hq
    have hs : old.state = some "deleted" := by
      have := (List.mem_filter.mp hm).2
      simp only [Bool.and_eq_true, beq_iff_eq] at this
      exact this.2
    exact newOf_eq_candVal entries old hs

theorem mem_removes (entries : List FileState) (p : String) :
    p ∈ removesOf entries ↔
      (∃ old, old ∈ stage2 entries ∧ old.type = some "unknown" ∧
        old.state = some "deleted" ∧ old.path = p) ∧
      candVal entries p = [] := by
  unfold removesOf
  simp only [List.mem_map, List.mem_filter]
  constructor
  · rintro ⟨⟨k, v⟩, ⟨hm, hv⟩, rfl⟩
    obtain ⟨hex, hval⟩ := (mem_pm0 entries (k, v)).mp hm
    simp only [beq_iff_eq] at hv
    subst hv
    exact ⟨hex, hval.symm⟩
  · rintro ⟨hex, hcv⟩
    refine ⟨(p, candVal entries p), ⟨(mem_pm0 entries (p, candVal entries p)).mpr ⟨hex, rfl⟩, ?_⟩, rfl⟩
    simp [hcv]

theorem keys_pmF (entries : List FileState) (p : String) :
    p ∈ (potentialMovesOf entries).map Prod.fst ↔
      (∃ old, old ∈ stage2 entries ∧ old.type = some "unknown" ∧
        old.state = some "deleted" ∧ old.path = p) ∧
      candVal entries p ≠ [] := by
  unfold potentialMovesOf
  simp only [List.mem_map, List.mem_filter]
  constructor
  · rintro ⟨⟨k, v⟩, ⟨hm, hnr⟩, rfl⟩
    obtain ⟨hex, hval⟩ := (mem_pm0 entries (k, v)).mp hm
    refine ⟨hex, ?_⟩
    intro hnil
    have hr : k ∈ removesOf entries := (mem_removes entries k).mpr ⟨hex, hnil⟩
    rw [Bool.not_eq_true', contains_eq_false_iff] at hnr
    exact hnr hr
  · rintro ⟨hex, hne⟩
    refine ⟨(p, candVal entries p), ⟨(mem_pm0 entries (p, candVal entries p)).mpr ⟨hex, rfl⟩, ?_⟩, rfl⟩
    rw [Bool.not_eq_true', contains_eq_false_iff]
    exact fun hr => hne ((mem_removes entries p).mp hr).2

theorem candVal_ne_nil (entries : List FileState) (p : String) :
    candVal entries p ≠ [] ↔
      ∃ s, s ∈ addNamesOf entries ∧ basename p = basename s.path := by
  unfold candVal
  rw [Ne, List.map_eq_nil_iff, List.filter_eq_nil_iff]
  push_neg
  simp [beq_iff_eq]

theorem mem_pmF (entries : List FileState) (kv : String × List String) :
    kv ∈ potentialMovesOf entries ↔ kv ∈ potentialMoves0Of entries ∧
      kv.1 ∉ removesOf entries := by
  unfold potentialMovesOf
  rw [List.mem_filter, Bool.not_eq_true', contains_eq_false_iff]

/-! ### Claim C2 -/

/-- C2, counterexample.  The claim asserts that `removed ∪ potentialMoves.keys()`
equals *all* deleted unknown-type paths not absorbed into `newDirectories`, and
that a deleted path lands in `potentialMoves` as soon as *any* Stored-state
record shares its base name.  Both parts fail on the code: a deleted record
with an empty (root-placeholder) path is dropped before classification though
it is absorbed nowhere, and a Stored-state record that is itself absorbed into
`newDirectories` (here `/B/x.jpg`, created inside the new directory `/B`) is
not a move candidate, so `/A/x.jpg` lands in `removed` even though a stored
record shares its base name. -/
theorem claim2_counterexample :
    (⟨some "deleted", some "unknown", true, "", false⟩ : FileState) ∈
        ([⟨some "changed", some "dir", false, "/B", true⟩,
          ⟨some "store", some "file", false, "/B/x.jpg", false⟩,
          ⟨some "deleted", some "unknown", true, "/A/x.jpg", false⟩,
          ⟨some "deleted", some "unknown", true, "", false⟩] : List FileState) ∧
    absorbedIn (classify distance true
        [⟨some "changed", some "dir", false, "/B", true⟩,
         ⟨some "store", some "file", false, "/B/x.jpg", false⟩,
         ⟨some "deleted", some "unknown", true, "/A/x.jpg", false⟩,
         ⟨some "deleted", some "unknown", true, "", false⟩]).newdirs "" = false ∧
    "" ∉ (classify distance true
        [⟨some "changed", some "dir", false, "/B", true⟩,
         ⟨some "store", some "file", false, "/B/x.jpg", false⟩,
         ⟨some "deleted", some "unknown", true, "/A/x.jpg", false⟩,
         ⟨some "deleted", some "unknown", true, "", false⟩]).removes ∧
    "" ∉ ((classify distance true
        [⟨some "changed", some "dir", false, "/B", true⟩,
         ⟨some "store", some "file", false, "/B/x.jpg", false⟩,
         ⟨some "deleted", some "unknown", true, "/A/x.jpg", false⟩,
         ⟨some "deleted", some "unknown", true, "", false⟩]).potentialMoves.map Prod.fst) ∧
    (∃ s, s ∈ ([⟨some "changed", some "dir", false, "/B", true⟩,
          ⟨some "store", some "file", false, "/B/x.jpg", false⟩,
          ⟨some "deleted", some "unknown", true, "/A/x.jpg", false⟩,
          ⟨some "deleted", some "unknown", true, "", false⟩] : List FileState) ∧
        s.state = some "store" ∧ basename "/A/x.jpg" = basename s.path) ∧
    "/A/x.jpg" ∈ (classify distance true
        [⟨some "changed", some "dir", false, "/B", true⟩,
         ⟨some "store", some "file", false, "/B/x.jpg", false⟩,
         ⟨some "deleted", some "unknown", true, "/A/x.jpg", false⟩,
         ⟨some "deleted", some "unknown", true, "", false⟩]).removes ∧
    "/A/x.jpg" ∉ ((classify distance true
        [⟨some "changed", some "dir", false, "/B", true⟩,
         ⟨some "store", some "file", false, "/B/x.jpg", false⟩,
         ⟨some "deleted", some "unknown", true, "/A/x.jpg", false⟩,
         ⟨some "deleted", some "unknown", true, "", false⟩]).potentialMoves.map Prod.fst) := by
  decide

/-- C2, amended: for every record sequence, `removes` and the key set of
`potentialMoves` are disjoint; their union is exactly the set of paths of
records with state Deleted and entry type Unknown that have a non-empty path
and were not absorbed into `newdirs` (as key or listed member); and such a
deleted path is a `potentialMoves` key iff some Stored-state record that
itself has a non-empty, non-absorbed path shares its base name (it then lands
in `removes` otherwise). -/
theorem claim2_partition (distance : String → String → Int) (computeMoveDirs : Bool)
    (entries : List FileState) :
    ((classify distance computeMoveDirs entries).removes.all
      (fun p => !((classify distance computeMoveDirs entries).potentialMoves.map
        Prod.fst).contains p) = true) ∧
    (∀ p, (p ∈ (classify distance computeMoveDirs entries).removes ∨
        p ∈ ((classify distance computeMoveDirs entries).potentialMoves.map Prod.fst)) ↔
      ∃ e, e ∈ entries ∧ e.state = some "deleted" ∧ e.type = some "unknown" ∧
        e.path = p ∧ p ≠ "" ∧
        absorbedIn (classify distance computeMoveDirs entries).newdirs p = false) ∧
    (∀ p, p ∈ ((classify distance computeMoveDirs entries).potentialMoves.map Prod.fst) ↔
      ((p ∈ (classify distance computeMoveDirs entries).removes ∨
        p ∈ ((classify distance computeMoveDirs entries).potentialMoves.map Prod.fst)) ∧
       ∃ s, s ∈ entries ∧ s.path ≠ "" ∧
        absorbedIn (classify distance computeMoveDirs entries).newdirs s.path = false ∧
        s.state = some "store" ∧ basename p = basename s.path)) := by
  have hre : (classify distance computeMoveDirs entries).removes = removesOf entries := rfl
  have hpm : (classify distance computeMoveDirs entries).potentialMoves =
      potentialMovesOf entries := rfl
  have hnd : (classify distance computeMoveDirs entries).newdirs = newdirsOf entries := rfl
  rw [hre, hpm, hnd]
  have hstage : ∀ (e : FileState) (p : String), (e ∈ stage2 entries ∧ e.path = p) ↔
      (e ∈ entries ∧ e.path = p ∧ p ≠ "" ∧ absorbedIn (newdirsOf entries) p = false) := by
    intro e p
    rw [mem_stage2]
    constructor
    · rintro ⟨⟨he, hne, hab⟩, rfl⟩
      exact ⟨he, rfl, hne, hab⟩
    · rintro ⟨he, rfl, hne, hab⟩
      exact ⟨⟨he, hne, hab⟩, rfl⟩
  refine ⟨?_, ?_, ?_⟩
  · rw [List.all_eq_true]
    intro p hp
    rw [Bool.not_eq_eq_eq_not, Bool.not_true, contains_eq_false_iff]
    intro hk
    have h1 := ((mem_removes entries p).mp hp).2
    have h2 := ((keys_pmF entries p).mp hk).2
    exact h2 h1
  · intro p
    constructor
    · intro h
      have hex : ∃ old, old ∈ stage2 entries ∧ old.type = some "unknown" ∧
          old.state = some "deleted" ∧ old.path = p := by
        rcases h with h | h
        · exact ((mem_removes entries p).mp h).1
        · exact ((keys_pmF entries p).mp h).1
      obtain ⟨old, hm, ht, hs, hp⟩ := hex
      obtain ⟨he, _, hne, hab⟩ := (hstage old p).mp ⟨hm, hp⟩
      exact ⟨old, he, hs, ht, hp, hne, hab⟩
    · rintro ⟨e, he, hs, ht, hp, hne, hab⟩
      have hm : e ∈ stage2 entries := ((hstage e p).mpr ⟨he, hp, hne, hab⟩).1
      by_cases hc : candVal entries p = []
      · exact Or.inl ((mem_removes entries p).mpr ⟨⟨e, hm, ht, hs, hp⟩, hc⟩)
      · exact Or.inr ((keys_pmF entries p).mpr ⟨⟨e, hm, ht, hs, hp⟩, hc⟩)
  · intro p
    rw [keys_pmF, candVal_ne_nil]
    constructor
    · rintro ⟨hex, s, hsm, hb⟩
      obtain ⟨hs2, hstore⟩ := (mem_addNames entries s).mp hsm
      obtain ⟨hse, _, hsne, hsab⟩ := (hstage s s.path).mp ⟨hs2, rfl⟩
      exact ⟨Or.inr ⟨hex, s, hsm, hb⟩, s, hse, hsne, hsab, hstore, hb⟩
    · rintro ⟨h, s, hse, hsne, hsab, hstore, hb⟩
      have hex : ∃ old, old ∈ stage2 entries ∧ old.type = some "unknown" ∧
          old.state = some "deleted" ∧ old.path = p := by
        rcases h with h | h
        · exact ((mem_removes entries p).mp h).1
        · exact h.1
      refine ⟨hex, s, ?_, hb⟩
      rw [mem_addNames]
      exact ⟨((hstage s s.path).mpr ⟨hse, rfl, hsne, hsab⟩).1, hstore⟩

/-- C2, witness: the amended theorem applied at a concrete input (a deleted
picture whose only same-base-name stored record survives absorption). -/
theorem claim2_witness :
    "/A/pic.jpg" ∈ ((classify distance true
        [⟨some "deleted", some "unknown", true, "/A/pic.jpg", false⟩,
         ⟨some "store", some "file", false, "/B/pic.jpg", false⟩]).potentialMoves.map
           Prod.fst) ↔
      (("/A/pic.jpg" ∈ (classify distance true
          [⟨some "deleted", some "unknown", true, "/A/pic.jpg", false⟩,
           ⟨some "store", some "file", false, "/B/pic.jpg", false⟩]).removes ∨
        "/A/pic.jpg" ∈ ((classify distance true
          [⟨some "deleted", some "unknown", true, "/A/pic.jpg", false⟩,
           ⟨some "store", some "file", false, "/B/pic.jpg", false⟩]).potentialMoves.map
             Prod.fst)) ∧
       ∃ s, s ∈ ([⟨some "deleted", some "unknown", true, "/A/pic.jpg", false⟩,
           ⟨some "store", some "file", false, "/B/pic.jpg", false⟩] : List FileState) ∧
         s.path ≠ "" ∧
         absorbedIn (classify distance true
            [⟨some "deleted", some "unknown", true, "/A/pic.jpg", false⟩,
             ⟨some "store", some "file", false, "/B/pic.jpg", false⟩]).newdirs s.path =
           false ∧
         s.state = some "store" ∧ basename "/A/pic.jpg" = basename s.path) :=
  (claim2_partition distance true
    [⟨some "deleted", some "unknown", true, "/A/pic.jpg", false⟩,
     ⟨some "store", some "file", false, "/B/pic.jpg", false⟩]).2.2 "/A/pic.jpg"

/-! ### Path-origin lemmas for the result categories -/

theorem toList_eq_nil_iff (s : String) : s.toList = [] ↔ s = "" := by
  constructor
  · intro h
    have hs : s = String.mk s.data := rfl
    rw [hs, show s.data = ([] : List Char) from h]
  · intro h
    rw [h]
    decide

theorem absorbed_not_stage2 (entries : List FileState) (p : String)
    (hab : absorbedIn (newdirsOf entries) p = true) :
    ∀ e ∈ stage2 entries, e.path ≠ p := by
  intro e he hp
  have := ((mem_stage2 entries e).mp he).2.2
  rw [hp] at this
  rw [this] at hab
  exact Bool.false_ne_true hab

theorem mem_added_path (entries : List FileState) (p : String)
    (h : p ∈ addedOf entries) : ∃ e, e ∈ stage2 entries ∧ e.path = p := by
  unfold addedOf at h
  obtain ⟨e, he, rfl⟩ := List.mem_map.mp h
  exact ⟨e, (List.mem_filter.mp he).1, rfl⟩

theorem mem_modified0_path (entries : List FileState) (p : String)
    (h : p ∈ modified0Of entries) : ∃ e, e ∈ stage2 entries ∧ e.path = p := by
  unfold modified0Of at h
  obtain ⟨e, he, rfl⟩ := List.mem_map.mp h
  exact ⟨e, (List.mem_filter.mp he).1, rfl⟩

theorem mem_modified_sub (entries : List FileState) (p : String)
    (h : p ∈ modifiedOf entries) : p ∈ modified0Of entries :=
  (List.mem_filter.mp h).1

theorem mem_removes_path (entries : List FileState) (p : String)
    (h : p ∈ removesOf entries) : ∃ e, e ∈ stage2 entries ∧ e.path = p := by
  obtain ⟨⟨old, hm, _, _, hp⟩, _⟩ := (mem_removes entries p).mp h
  exact ⟨old, hm, hp⟩

theorem keys_pmF_path (entries : List FileState) (p : String)
    (h : p ∈ (potentialMovesOf entries).map Prod.fst) :
    ∃ e, e ∈ stage2 entries ∧ e.path = p := by
  obtain ⟨⟨old, hm, _, _, hp⟩, _⟩ := (keys_pmF entries p).mp h
  exact ⟨old, hm, hp⟩

theorem pm_cand_path (entries : List FileState) (kv : String × List String)
    (hkv : kv ∈ potentialMovesOf entries) (p : String) (hp : p ∈ kv.2) :
    ∃ e, e ∈ stage2 entries ∧ e.path = p := by
  have h0 : kv ∈ potentialMoves0Of entries := ((mem_pmF entries kv).mp hkv).1
  have hval := ((mem_pm0 entries kv).mp h0).2
  rw [hval] at hp
  unfold candVal at hp
  obtain ⟨e, he, rfl⟩ := List.mem_map.mp hp
  exact ⟨e, ((mem_addNames entries e).mp (List.mem_filter.mp he).1).1, rfl⟩

theorem mem_pmd (distance : String → String → Int) (entries : List FileState)
    (kv : String × String) :
    kv ∈ potentialMoveDirsOf distance entries ↔
      ((kv.1 ∈ (potentialMovesOf entries).map Prod.fst ∨ kv.1 ∈ removesOf entries) ∧
        kv.2 = pmdVal distance entries kv.1 ∧ kv.2 ≠ "") := by
  obtain ⟨k, v⟩ := kv
  unfold potentialMoveDirsOf
  have hinv : ∀ q ∈ (((potentialMovesOf entries).map Prod.fst ++ removesOf entries).map
      (fun delname => (delname, pmdVal distance entries delname))),
      q.2 = pmdVal distance entries q.1 := by
    rintro q hq
    obtain ⟨x, _, rfl⟩ := List.mem_map.mp hq
    rfl
  rw [List.mem_filter, pyDict_mem_keyfn (pmdVal distance entries) _ hinv]
  have hcomp : (Prod.fst ∘ fun delname : String =>
      (delname, pmdVal distance entries delname)) = id := by
    funext x
    rfl
  rw [List.map_map, hcomp, List.map_id]
  simp only [bne_iff_ne]
  constructor
  · rintro ⟨⟨hk, rfl⟩, hne⟩
    rw [List.mem_append] at hk
    exact ⟨hk, rfl, hne⟩
  · rintro ⟨hk, rfl, hne⟩
    rw [← List.mem_append] at hk
    exact ⟨⟨hk, rfl⟩, hne⟩

theorem keys_pmd_path (distance : String → String → Int) (entries : List FileState)
    (kv : String × String) (h : kv ∈ potentialMoveDirsOf distance entries) :
    ∃ e, e ∈ stage2 entries ∧ e.path = kv.1 := by
  rcases ((mem_pmd distance entries kv).mp h).1 with hk | hk
  · exact keys_pmF_path entries kv.1 hk
  · exact mem_removes_path entries kv.1 hk

/-! ### Claim C5 -/

/-- C5, counterexample.  The claim, as stated, says a file created inside a
brand-new directory never appears in `potentialMoveDirs`.  When a second
new-directory record carries the same path string as the file (`/D/x` here),
that path is a `newdirs` key and hence resurfaces as a directory-move
candidate for the deleted `/z`. -/
theorem claim5_counterexample :
    ((⟨some "changed", some "dir", false, "/D", true⟩ : FileState) ∈
        ([⟨some "changed", some "dir", false, "/D", true⟩,
          ⟨some "store", some "file", false, "/D/x", false⟩,
          ⟨some "changed", some "dir", false, "/D/x", true⟩,
          ⟨some "deleted", some "unknown", true, "/z", false⟩] : List FileState) ∧
      (⟨some "store", some "file", false, "/D/x", false⟩ : FileState).type = some "file" ∧
      pyStartsWith "/D/x" "/D" = true) ∧
    ("/z", "/D:1, /D/x:1") ∈ (classify distance true
        [⟨some "changed", some "dir", false, "/D", true⟩,
         ⟨some "store", some "file", false, "/D/x", false⟩,
         ⟨some "changed", some "dir", false, "/D/x", true⟩,
         ⟨some "deleted", some "unknown", true, "/z", false⟩]).potentialMoveDirs ∧
    (1, "/D/x") ∈ moveDirCandidates distance ((classify distance true
        [⟨some "changed", some "dir", false, "/D", true⟩,
         ⟨some "store", some "file", false, "/D/x", false⟩,
         ⟨some "changed", some "dir", false, "/D/x", true⟩,
         ⟨some "deleted", some "unknown", true, "/z", false⟩]).newdirs.map Prod.fst) "/z" := by
  decide

/-- C5, amended: if the input holds a new-directory record `d` (non-empty
path) and a file record `f` whose path starts with `d.path`, and no
new-directory record shares `f`'s path string, then `f.path` is listed under
`d.path` in `newdirs` and appears nowhere else: not in `added`, `modified`,
`removes`, the keys or candidate lists of `potentialMoves`, nor as a key or
candidate of `potentialMoveDirs`. -/
theorem claim5_newdir_containment (distance : String → String → Int)
    (computeMoveDirs : Bool) (entries : List FileState) (d f : FileState)
    (hd : d ∈ entries) (hdn : d.newdir = true) (hdp : d.path ≠ "")
    (hf : f ∈ entries) (hft : f.type = some "file")
    (hpre : pyStartsWith f.path d.path = true)
    (hnodup : ∀ r ∈ entries, r.newdir = true → r.path ≠ f.path) :
    ((d.path, ndVal entries d.path) ∈ (classify distance computeMoveDirs entries).newdirs ∧
      f.path ∈ ndVal entries d.path) ∧
    f.path ∉ (classify distance computeMoveDirs entries).added ∧
    f.path ∉ (classify distance computeMoveDirs entries).modified ∧
    f.path ∉ (classify distance computeMoveDirs entries).removes ∧
    f.path ∉ ((classify distance computeMoveDirs entries).potentialMoves.map Prod.fst) ∧
    (∀ kv ∈ (classify distance computeMoveDirs entries).potentialMoves, f.path ∉ kv.2) ∧
    (∀ kv ∈ (classify distance computeMoveDirs entries).potentialMoveDirs,
      kv.1 ≠ f.path ∧
      ∀ c ∈ moveDirCandidates distance
          ((classify distance computeMoveDirs entries).newdirs.map Prod.fst) kv.1,
        c.2 ≠ f.path) := by
  have hfp : f.path ≠ "" := by
    obtain ⟨t, ht⟩ := (listIsPre_iff d.path.toList f.path.toList).mp hpre
    intro hcon
    rw [hcon] at ht
    have : d.path.toList = [] := by
      cases hd2 : d.path.toList with
      | nil => rfl
      | cons a l => rw [hd2] at ht; simp at ht
    exact hdp ((toList_eq_nil_iff d.path).mp this)
  have hndm : (d.path, ndVal entries d.path) ∈ newdirsOf entries :=
    (mem_newdirs entries (d.path, ndVal entries d.path)).mpr
      ⟨⟨d, (mem_stage1 entries d).mpr ⟨hd, hdp⟩, hdn, rfl⟩, rfl⟩
  have hmem : f.path ∈ ndVal entries d.path := by
    unfold ndVal
    refine List.mem_map.mpr ⟨f, List.mem_filter.mpr ⟨(mem_stage1 entries f).mpr ⟨hf, hfp⟩, ?_⟩, rfl⟩
    simp [hpre, hft]
  have hab : absorbedIn (newdirsOf entries) f.path = true := by
    unfold absorbedIn
    apply Bool.or_eq_true_iff.mpr
    right
    rw [List.any_eq_true]
    exact ⟨(d.path, ndVal entries d.path), hndm, by simpa using hmem⟩
  have hnot2 := absorbed_not_stage2 entries f.path hab
  have hnkey : f.path ∉ (newdirsOf entries).map Prod.fst := by
    intro hk
    obtain ⟨r, hr, hrn, hrp⟩ := (keys_newdirs entries f.path).mp hk
    exact hnodup r ((mem_stage1 entries r).mp hr).1 hrn hrp
  refine ⟨⟨hndm, hmem⟩, ?_, ?_, ?_, ?_, ?_, ?_⟩
  · intro h
    obtain ⟨e, he, hp⟩ := mem_added_path entries f.path h
    exact hnot2 e he hp
  · intro h
    obtain ⟨e, he, hp⟩ := mem_modified0_path entries f.path (mem_modified_sub entries f.path h)
    exact hnot2 e he hp
  · intro h
    obtain ⟨e, he, hp⟩ := mem_removes_path entries f.path h
    exact hnot2 e he hp
  · intro h
    obtain ⟨e, he, hp⟩ := keys_pmF_path entries f.path h
    exact hnot2 e he hp
  · intro kv hkv h
    obtain ⟨e, he, hp⟩ := pm_cand_path entries kv hkv f.path h
    exact hnot2 e he hp
  · intro kv hkv
    have hkv' : kv ∈ potentialMoveDirsOf distance entries := by
      by_cases hcm : computeMoveDirs = true
      · simpa [classify, hcm] using hkv
      · rw [Bool.not_eq_true] at hcm
        simp [classify, hcm] at hkv
    constructor
    · intro hcon
      obtain ⟨e, he, hp⟩ := keys_pmd_path distance entries kv hkv'
      rw [hcon] at hp
      exact hnot2 e he hp
    · intro c hc hcon
      have hm := moveDirCandidates_snd_mem distance _ kv.1 c hc
      rw [hcon] at hm
      exact hnkey hm

/-- C5, witness: the amended theorem applied at a concrete input (`/D/x`
created inside the brand-new `/D`). -/
theorem claim5_witness :
    (("/D", ndVal [⟨some "changed", some "dir", false, "/D", true⟩,
        ⟨some "store", some "file", false, "/D/x", false⟩] "/D") ∈
      (classify distance true
        [⟨some "changed", some "dir", false, "/D", true⟩,
         ⟨some "store", some "file", false, "/D/x", false⟩]).newdirs ∧
      "/D/x" ∈ ndVal [⟨some "changed", some "dir", false, "/D", true⟩,
        ⟨some "store", some "file", false, "/D/x", false⟩] "/D") ∧
    "/D/x" ∉ (classify distance true
        [⟨some "changed", some "dir", false, "/D", true⟩,
         ⟨some "store", some "file", false, "/D/x", false⟩]).added ∧
    "/D/x" ∉ (classify distance true
        [⟨some "changed", some "dir", false, "/D", true⟩,
         ⟨some "store", some "file", false, "/D/x", false⟩]).modified ∧
    "/D/x" ∉ (classify distance true
        [⟨some "changed", some "dir", false, "/D", true⟩,
         ⟨some "store", some "file", false, "/D/x", false⟩]).removes ∧
    "/D/x" ∉ ((classify distance true
        [⟨some "changed", some "dir", false, "/D", true⟩,
         ⟨some "store", some "file", false, "/D/x", false⟩]).potentialMoves.map Prod.fst) ∧
    (∀ kv ∈ (classify distance true
        [⟨some "changed", some "dir", false, "/D", true⟩,
         ⟨some "store", some "file", false, "/D/x", false⟩]).potentialMoves,
      "/D/x" ∉ kv.2) ∧
    (∀ kv ∈ (classify distance true
        [⟨some "changed", some "dir", false, "/D", true⟩,
         ⟨some "store", some "file", false, "/D/x", false⟩]).potentialMoveDirs,
      kv.1 ≠ "/D/x" ∧
      ∀ c ∈ moveDirCandidates distance ((classify distance true
          [⟨some "changed", some "dir", false, "/D", true⟩,
           ⟨some "store", some "file", false, "/D/x", false⟩]).newdirs.map Prod.fst) kv.1,
        c.2 ≠ "/D/x") :=
  claim5_newdir_containment distance true
    [⟨some "changed", some "dir", false, "/D", true⟩,
     ⟨some "store", some "file", false, "/D/x", false⟩]
    ⟨some "changed", some "dir", false, "/D", true⟩
    ⟨some "store", some "file", false, "/D/x", false⟩
    (by decide) (by decide) (by decide) (by decide) (by decide) (by decide) (by decide)

/-! ### Claim C3 -/

/-- C3, counterexample.  The claim asserts that the listed distances in a
`potentialMoveDirs` entry are strictly increasing; with two candidate new
directories at the same base-name distance from the deleted `/x`, both are
kept and the distances tie at 1, so the sequence is not strictly increasing
(it is only nondecreasing, ties broken by candidate path). -/
theorem claim3_counterexample :
    ("/x", "/a:1, /b:1") ∈ (classify distance true
        [⟨some "changed", some "dir", false, "/a", true⟩,
         ⟨some "changed", some "dir", false, "/b", true⟩,
         ⟨some "deleted", some "unknown", true, "/x", false⟩]).potentialMoveDirs ∧
    moveDirCandidates distance ((classify distance true
        [⟨some "changed", some "dir", false, "/a", true⟩,
         ⟨some "changed", some "dir", false, "/b", true⟩,
         ⟨some "deleted", some "unknown", true, "/x", false⟩]).newdirs.map Prod.fst) "/x" =
      [(1, "/a"), (1, "/b")] ∧
    ¬ List.Pairwise (fun a b : Int × String => a.1 < b.1)
      (moveDirCandidates distance ((classify distance true
        [⟨some "changed", some "dir", false, "/a", true⟩,
         ⟨some "changed", some "dir", false, "/b", true⟩,
         ⟨some "deleted", some "unknown", true, "/x", false⟩]).newdirs.map Prod.fst) "/x") := by
  refine ⟨by decide, by decide, ?_⟩
  intro h
  rw [show moveDirCandidates distance ((classify distance true
      [⟨some "changed", some "dir", false, "/a", true⟩,
       ⟨some "changed", some "dir", false, "/b", true⟩,
       ⟨some "deleted", some "unknown", true, "/x", false⟩]).newdirs.map Prod.fst) "/x" =
      [(1, "/a"), (1, "/b")] from by decide] at h
  have h1 := (List.pairwise_cons.mp h).1 (1, "/b") (List.mem_singleton.mpr rfl)
  exact absurd h1 (by decide)

/-- C3, amended: every `potentialMoveDirs` entry renders the candidate list
computed for its key, which is non-empty (keys with no qualifying candidate
are dropped), holds at most `MAX_MOVE_DIRS` (2) candidates, each with
distance strictly below `MAX_EDIT_DISTANCE` (5), and is sorted ascending by
(distance, candidate path); consequently the distances are nondecreasing —
but ties are possible, so they need not be strictly increasing. -/
theorem claim3_moveDirCandidates (distance : String → String → Int)
    (computeMoveDirs : Bool) (entries : List FileState) :
    ∀ kv ∈ (classify distance computeMoveDirs entries).potentialMoveDirs,
      kv.2 = renderCandidates (moveDirCandidates distance
        ((classify distance computeMoveDirs entries).newdirs.map Prod.fst) kv.1) ∧
      moveDirCandidates distance
        ((classify distance computeMoveDirs entries).newdirs.map Prod.fst) kv.1 ≠ [] ∧
      (moveDirCandidates distance
        ((classify distance computeMoveDirs entries).newdirs.map Prod.fst) kv.1).length ≤
        MAX_MOVE_DIRS ∧
      (∀ c ∈ moveDirCandidates distance
          ((classify distance computeMoveDirs entries).newdirs.map Prod.fst) kv.1,
        c.1 < MAX_EDIT_DISTANCE) ∧
      List.Pairwise pairLeR (moveDirCandidates distance
        ((classify distance computeMoveDirs entries).newdirs.map Prod.fst) kv.1) ∧
      List.Pairwise (fun a b : Int × String => a.1 ≤ b.1) (moveDirCandidates distance
        ((classify distance computeMoveDirs entries).newdirs.map Prod.fst) kv.1) := by
  intro kv hkv
  have hkv' : kv ∈ potentialMoveDirsOf distance entries := by
    by_cases hcm : computeMoveDirs = true
    · simpa [classify, hcm] using hkv
    · rw [Bool.not_eq_true] at hcm
      simp [classify, hcm] at hkv
  obtain ⟨_, hval, hne⟩ := (mem_pmd distance entries kv).mp hkv'
  have hnd : (classify distance computeMoveDirs entries).newdirs = newdirsOf entries := rfl
  rw [hnd]
  have hcne : moveDirCandidates distance ((newdirsOf entries).map Prod.fst) kv.1 ≠ [] := by
    intro hnil
    apply hne
    rw [hval]
    unfold pmdVal
    rw [hnil]
    exact renderCandidates_nil
  exact ⟨hval, hcne, moveDirCandidates_length distance _ kv.1,
    fun c hc => moveDirCandidates_lt distance _ kv.1 c hc,
    moveDirCandidates_pairwise distance _ kv.1,
    moveDirCandidates_fst_le distance _ kv.1⟩

/-- C3, witness: the amended theorem applied at a concrete input whose
`potentialMoveDirs` is non-empty (deleted `/Photos2020`, new `/Photos_2020`). -/
theorem claim3_witness :
    ("/Photos2020", "/Photos_2020:1") = ("/Photos2020", "/Photos_2020:1") ∧
    renderCandidates (moveDirCandidates distance ((classify distance true
        [⟨some "changed", some "dir", false, "/Photos_2020", true⟩,
         ⟨some "deleted", some "unknown", true, "/Photos2020", false⟩]).newdirs.map
          Prod.fst) "/Photos2020") = "/Photos_2020:1" ∧
    moveDirCandidates distance ((classify distance true
        [⟨some "changed", some "dir", false, "/Photos_2020", true⟩,
         ⟨some "deleted", some "unknown", true, "/Photos2020", false⟩]).newdirs.map
          Prod.fst) "/Photos2020" ≠ [] ∧
    (moveDirCandidates distance ((classify distance true
        [⟨some "changed", some "dir", false, "/Photos_2020", true⟩,
         ⟨some "deleted", some "unknown", true, "/Photos2020", false⟩]).newdirs.map
          Prod.fst) "/Photos2020").length ≤ MAX_MOVE_DIRS := by
  have h := claim3_moveDirCandidates distance true
    [⟨some "changed", some "dir", false, "/Photos_2020", true⟩,
     ⟨some "deleted", some "unknown", true, "/Photos2020", false⟩]
    ("/Photos2020", "/Photos_2020:1") (by decide)
  exact ⟨rfl, h.1.symm, h.2.1, h.2.2.1⟩

/-! ### Claim C8 -/

/-- C8: `added` and `modified` are disjoint in every classification: the final
`modified` list is filtered against `added` (rsyncr.py line 332), so a path
satisfying both the added and the modified condition survives only in
`added`. -/
theorem claim8_added_modified_disjoint (distance : String → String → Int)
    (computeMoveDirs : Bool) (entries : List FileState) :
    ((classify distance computeMoveDirs entries).modified.all
      (fun m => !((classify distance computeMoveDirs entries).added.contains m)) = true) ∧
    ((classify distance computeMoveDirs entries).added.all
      (fun a => !((classify distance computeMoveDirs entries).modified.contains a)) = true) := by
  have h1 : ∀ m ∈ modifiedOf entries, m ∉ addedOf entries := by
    intro m hm
    have h := (List.mem_filter.mp hm).2
    rw [Bool.not_eq_eq_eq_not, Bool.not_true, contains_eq_false_iff] at h
    exact h
  constructor
  · rw [List.all_eq_true]
    intro m hm
    rw [Bool.not_eq_eq_eq_not, Bool.not_true, contains_eq_false_iff]
    exact h1 m hm
  · rw [List.all_eq_true]
    intro a ha
    rw [Bool.not_eq_eq_eq_not, Bool.not_true, contains_eq_false_iff]
    intro hm
    exact h1 a hm ha

/-! ### Claim C1 -/

/-- C1: the execution gate denies the real run exactly when
`removes`, `potentialMoves` and `potentialMoveDirs` together are non-empty
and `--force` is absent; with all three empty it proceeds regardless of
`added` / `modified`, and with `--force` it always proceeds. -/
theorem claim1_executionGate (r : ClassificationResult) (force : Bool) :
    (mayProceed r force = false ↔
      (0 < r.removes.length + r.potentialMoves.length + r.potentialMoveDirs.length ∧
        force = false)) ∧
    mayProceed r true = true ∧
    ((r.removes = [] ∧ r.potentialMoves = [] ∧ r.potentialMoveDirs = []) →
      mayProceed r force = true) := by
  unfold mayProceed
  refine ⟨?_, by simp, ?_⟩
  · cases force with
    | false =>
      constructor
      · intro h
        have hd : decide (0 < r.removes.length + r.potentialMoves.length +
            r.potentialMoveDirs.length) = true := by
          by_contra hn
          rw [Bool.not_eq_true] at hn
          rw [hn] at h
          simp at h
        exact ⟨of_decide_eq_true hd, rfl⟩
      · rintro ⟨h1, _⟩
        simp [h1]
    | true =>
      constructor
      · intro h
        simp at h
      · rintro ⟨_, h2⟩
        exact absurd h2 (by simp)
  · rintro ⟨h1, h2, h3⟩
    simp [h1, h2, h3]

/-- C1, witness: the gate theorem applied at concrete results. -/
theorem claim1_witness :
    mayProceed ⟨[], [], ["/gone"], [], [], []⟩ false = false ∧
    mayProceed ⟨[], [], [], ["/m"], ["/a"], []⟩ false = true ∧
    mayProceed ⟨[], [], ["/gone"], [], [], []⟩ true = true :=
  ⟨(claim1_executionGate ⟨[], [], ["/gone"], [], [], []⟩ false).1.mpr ⟨by decide, rfl⟩,
   (claim1_executionGate ⟨[], [], [], ["/m"], ["/a"], []⟩ false).2.2 ⟨rfl, rfl, rfl⟩,
   (claim1_executionGate ⟨[], [], ["/gone"], [], [], []⟩ true).2.1⟩

/-! ### Claim C9 -/

/-- C9: the trivial fallback metric (rsyncr.py line 259) satisfies the
strategy contract: non-negative integer values, identity on equal strings,
and symmetry. -/
theorem claim9_distance_contract (a b : String) :
    0 ≤ distance a b ∧ distance a a = 0 ∧ distance a b = distance b a := by
  unfold distance
  refine ⟨?_, by simp, ?_⟩
  · split <;> norm_num
  · by_cases h : a = b
    · subst h
      rfl
    · have h' : b ≠ a := fun hh => h hh.symm
      simp [h, h']

/-! ### Claim C10 -/

/-- C10: membership in a `newdirs` list is raw string-prefix comparison, not
path-segment containment: the stored file `/foo2/x` merely begins with the
new directory path string `/foo` (it is not inside `/foo`), yet it is listed
under `/foo` and thereby excluded from `added`, `modified`, `removes` and
both move maps. -/
theorem claim10_rawPrefixContainment :
    classify distance true
        [⟨some "changed", some "dir", false, "/foo", true⟩,
         ⟨some "store", some "file", false, "/foo2/x", false⟩] =
      ⟨[("/foo", ["/foo2/x"])], [], [], [], [], []⟩ ∧
    pyStartsWith "/foo2/x" "/foo" = true ∧
    pyStartsWith "/foo2/x" ("/foo" ++ "/") = false ∧
    "/foo2/x" ≠ "/foo" := by decide

/-! ### Reduction lemmas for `parseLine` -/

theorem string_data_ext {s t : String} (h : s.data = t.data) : s = t := by
  cases s
  cases t
  exact congrArg String.mk h

theorem toList_append (s t : String) : (s ++ t).toList = s.toList ++ t.toList :=
  String.data_append s t

theorem parseLine_nonmessage (cp : String) (af : String → String) (line : String)
    (a0 a1 : Char) (rest : List Char) (h : lineAtts line = a0 :: a1 :: rest)
    (hsp : ' ' ∈ line.toList) (hmsg : StateTab a0 ≠ some "message") :
    parseLine cp af line =
      finishLine cp af line (EntryTab a1) (xany (fun c => c ∈ ChangeChars) rest) := by
  simp only [parseLine]
  rw [h]
  rw [if_neg (not_not_intro hsp)]
  rw [if_neg (by simp)]
  rw [if_neg (by simpa using hmsg)]
  rw [if_neg (by simp only [List.length_cons]; omega)]
  simp

theorem parseLine_message (cp : String) (af : String → String) (line : String)
    (a0 : Char) (arest : List Char) (h : lineAtts line = a0 :: arest)
    (hsp : ' ' ∈ line.toList) (hmsg : StateTab a0 = some "message") :
    parseLine cp af line = finishLine cp af line (EntryTab 'u') true := by
  simp only [parseLine]
  rw [h]
  rw [if_neg (not_not_intro hsp)]
  rw [if_neg (by simp)]
  rw [if_pos (by simpa using hmsg)]

theorem finishLine_error_iff (cp : String) (af : String → String) (line : String)
    (entry : Option String) (change : Bool) :
    (∃ msg, finishLine cp af line entry change = .error msg) ↔
      ¬ (pyStartsWith (normalizedPath af line) (cp ++ "/") = true ∨
        normalizedPath af line = cp) := by
  simp only [finishLine]
  split
  · rename_i hcond
    simp only [Bool.or_eq_true, beq_iff_eq] at hcond
    constructor
    · rintro ⟨msg, hmsg⟩
      exact absurd hmsg (by simp)
    · intro hn
      exact absurd hcond hn
  · rename_i hcond
    simp only [Bool.or_eq_true, beq_iff_eq] at hcond
    constructor
    · intro _
      exact hcond
    · intro _
      exact ⟨_, rfl⟩

theorem finishLine_ok (cp : String) (af : String → String) (line : String)
    (entry : Option String) (change : Bool) (r : FileState)
    (h : finishLine cp af line entry change = .ok r) :
    r.type = entry ∧ r.change = change ∧
    r.path = String.mk ((normalizedPath af line).toList.drop cp.toList.length) ∧
    (pyStartsWith (normalizedPath af line) (cp ++ "/") = true ∨
      normalizedPath af line = cp) := by
  simp only [finishLine] at h
  split at h
  · rename_i hcond
    simp only [Bool.or_eq_true, beq_iff_eq] at hcond
    simp only [Except.ok.injEq] at h
    subst h
    exact ⟨rfl, rfl, rfl, hcond⟩
  · exact absurd h (by simp)

theorem root_rebase (cp np : String)
    (h : pyStartsWith np (cp ++ "/") = true ∨ np = cp) :
    cp ++ String.mk (np.toList.drop cp.toList.length) = np ∧
    (String.mk (np.toList.drop cp.toList.length) = "" ↔ np = cp) := by
  rcases h with h | h
  · obtain ⟨t, ht⟩ := (listIsPre_iff _ _).mp h
    rw [toList_append] at ht
    have ht' : np.toList = cp.toList ++ ('/' :: t) := by
      rw [ht]
      simp [List.append_assoc]
    have hd : np.toList.drop cp.toList.length = '/' :: t := by
      rw [ht']
      exact List.drop_left cp.toList _
    rw [hd]
    constructor
    · apply string_data_ext
      rw [String.data_append]
      exact ht'.symm
    · constructor
      · intro hmk
        exfalso
        have : ('/' :: t : List Char) = [] := by
          have h2 : (String.mk ('/' :: t)).data = ("" : String).data := by rw [hmk]
          simp at h2
        simp at this
      · intro hcp
        exfalso
        rw [hcp] at ht'
        have := congrArg List.length ht'
        simp at this
  · subst h
    constructor
    · rw [show np.toList.drop np.toList.length = ([] : List Char) from
        List.drop_length np.toList]
      apply string_data_ext
      rw [String.data_append]
      simp
    · rw [show np.toList.drop np.toList.length = ([] : List Char) from
        List.drop_length np.toList]
      simp

/-! ### Claim C4 -/

/-- C4, counterexample.  The claim says a non-message line whose second
attribute character is unrecognized (here `L`, a symlink) fails with a
ParseError; the code instead looks it up with `Entry.get`, obtains `None`,
and returns a well-formed record with no entry type. -/
theorem claim4_counterexample :
    parseLine "/p" (fun s => "/p/cwd/" ++ s) ">L......... x" =
      .ok ⟨some "store", none, false, "/cwd/x", false⟩ ∧
    lineAtts ">L......... x" = '>' :: 'L' :: ".........".toList ∧
    EntryTab 'L' = none ∧
    StateTab '>' ≠ some "message" := by decide

/-- C4, amended: on a non-message line whose second attribute character is
not a recognized entry type, `parseLine` does not fail: provided the
normalized path passes the root check, it returns a record whose `type`
field is `none` (Python `None`). -/
theorem claim4_unknownEntryType (cp : String) (af : String → String) (line : String)
    (a0 a1 : Char) (rest : List Char) (h : lineAtts line = a0 :: a1 :: rest)
    (hsp : ' ' ∈ line.toList) (hmsg : StateTab a0 ≠ some "message")
    (hent : EntryTab a1 = none)
    (hpath : pyStartsWith (normalizedPath af line) (cp ++ "/") = true ∨
      normalizedPath af line = cp) :
    ∃ r, parseLine cp af line = .ok r ∧ r.type = none := by
  rw [parseLine_nonmessage cp af line a0 a1 rest h hsp hmsg]
  simp only [finishLine]
  rw [if_pos (by rcases hpath with h1 | h1 <;> simp [h1])]
  exact ⟨_, rfl, hent⟩

/-- C4, witness: the amended theorem at a concrete symlink-type line. -/
theorem claim4_witness :
    ∃ r, parseLine "/p" (fun s => "/p/cwd/" ++ s) ">S......... x" = .ok r ∧
      r.type = none :=
  claim4_unknownEntryType "/p" (fun s => "/p/cwd/" ++ s) ">S......... x" '>' 'S'
    ".........".toList (by decide) (by decide) (by decide) (by decide)
    (Or.inl (by decide))

/-! ### Claim C6 -/

/-- C6, counterexample.  The claim says `changed` is true iff some position
3-11 holds any non-identity marker; on `>f+++++++++` every such position
holds the creation marker `+` (which is not the identity marker `.`), yet
the code's membership test against `"cstpoguax"` yields `changed = false`
(this matches the script's own doctest, rsyncr.py line 84). -/
theorem claim6_counterexample :
    parseLine "/p" (fun s => "/p/cwd/" ++ s) ">f+++++++++ x" =
      .ok ⟨some "store", some "file", false, "/cwd/x", false⟩ ∧
    lineAtts ">f+++++++++ x" = '>' :: 'f' :: "+++++++++".toList ∧
    (∃ c ∈ "+++++++++".toList, c ≠ '.') := by decide

/-- C6, amended: on a non-message line, the parsed `change` flag is true iff
some attribute position 3-11 holds one of the change markers
`c s t p o g u a x`; the creation marker `+` (or any other character) does
not count. -/
theorem claim6_changedMarkers (cp : String) (af : String → String) (line : String)
    (a0 a1 : Char) (rest : List Char) (r : FileState)
    (h : lineAtts line = a0 :: a1 :: rest) (hmsg : StateTab a0 ≠ some "message")
    (hok : parseLine cp af line = .ok r) :
    (r.change = true ↔ ∃ c ∈ rest, c ∈ ChangeChars) := by
  have hsp : ' ' ∈ line.toList := by
    by_contra hn
    unfold parseLine at hok
    rw [if_pos hn] at hok
    exact Except.noConfusion hok
  rw [parseLine_nonmessage cp af line a0 a1 rest h hsp hmsg] at hok
  have hch := (finishLine_ok cp af line _ _ r hok).2.1
  rw [hch, xany_eq_any, List.any_eq_true]
  simp

/-- C6, witness: the amended theorem at a concrete line with checksum, size
and time markers set. -/
theorem claim6_witness :
    ((⟨some "store", some "file", true, "/cwd/y", false⟩ : FileState).change = true ↔
      ∃ c ∈ "cst......".toList, c ∈ ChangeChars) :=
  claim6_changedMarkers "/p" (fun s => "/p/cwd/" ++ s) ">fcst...... y" '>' 'f'
    "cst......".toList ⟨some "store", some "file", true, "/cwd/y", false⟩
    (by decide) (by decide) (by decide)

/-! ### Claim C7 -/

/-- C7: for any itemization line with a well-formed attribute code, parsing
fails exactly when the normalized absolute path is neither under the
common-parent root nor the root itself; on success the returned path is the
normalized path with the root prefix stripped (`root ++ path` restores it),
and it is empty exactly for the root placeholder. -/
theorem claim7_pathRebase (cp : String) (af : String → String) (line : String)
    (a0 : Char) (arest : List Char) (h : lineAtts line = a0 :: arest)
    (hsp : ' ' ∈ line.toList)
    (hlen : StateTab a0 ≠ some "message" → arest ≠ []) :
    ((∃ msg, parseLine cp af line = .error msg) ↔
      ¬ (pyStartsWith (normalizedPath af line) (cp ++ "/") = true ∨
        normalizedPath af line = cp)) ∧
    (∀ r, parseLine cp af line = .ok r →
      cp ++ r.path = normalizedPath af line ∧
      (r.path = "" ↔ normalizedPath af line = cp)) := by
  have hred : ∃ entry change, parseLine cp af line = finishLine cp af line entry change := by
    by_cases hmsg : StateTab a0 = some "message"
    · exact ⟨_, _, parseLine_message cp af line a0 arest h hsp hmsg⟩
    · cases arest with
      | nil => exact absurd rfl (hlen hmsg)
      | cons a1 rest =>
        exact ⟨_, _, parseLine_nonmessage cp af line a0 a1 rest h hsp hmsg⟩
  obtain ⟨entry, change, hred⟩ := hred
  rw [hred]
  constructor
  · exact finishLine_error_iff cp af line entry change
  · intro r hok
    obtain ⟨_, _, hpath, hcond⟩ := finishLine_ok cp af line entry change r hok
    rw [hpath]
    exact root_rebase cp (normalizedPath af line) hcond

/-- C7, witness: the rebase theorem at a concrete deletion-message line. -/
theorem claim7_witness :
    "/p" ++ (⟨some "deleted", some "unknown", true, "/cwd/old.jpg", false⟩ : FileState).path =
      normalizedPath (fun s => "/p/cwd/" ++ s) "*deleting   old.jpg" ∧
    ((⟨some "deleted", some "unknown", true, "/cwd/old.jpg", false⟩ : FileState).path = "" ↔
      normalizedPath (fun s => "/p/cwd/" ++ s) "*deleting   old.jpg" = "/p") :=
  (claim7_pathRebase "/p" (fun s => "/p/cwd/" ++ s) "*deleting   old.jpg" '*'
    "deleting".toList (by decide) (by decide)
    (fun hm => absurd (show StateTab '*' = some "message" by decide) hm)).2
    ⟨some "deleted", some "unknown", true, "/cwd/old.jpg", false⟩ (by decide)
